import Mathlib

/-!
Shallow embedding of `vendor/github.com/schollz/progressbar/progressbar.go`.

The Go code computes percentages with `float64` arithmetic
(`percent := float64(currentNum) / float64(max)`, then
`int(percent * 100)` and `int(percent * float64(width))`).  All values
arising there are finite, normal binary64 numbers (quotients of 64-bit
integers, and their products with 64-bit integers, never overflow or
reach the subnormal range), so every operation is exactly "round the
exact rational result to the nearest binary64 value, ties to even".

We model a `float64` value by a dyadic pair `Dy` (mantissa and binary
exponent; every binary64 value is of this form) and each floating-point
operation by exact integer arithmetic followed by correct rounding to a
53-bit significand, round to nearest, ties to even.  The function
`Dy.val` maps a representation to the rational it denotes, and the
`roundF` function on `ℚ` is the specification of rounding; bridge lemmas
relate the two.

Go's `int` is modelled by `Int`.  Where its 64-bit wraparound and the
clamping of an out-of-range `float64` → `int` conversion are observable
(extreme counter values), `wrap64`, `ftrunc64` and `Add64` model them
exactly (amd64 behaviour for the implementation-defined conversion:
out-of-range results become `-2^63`); `Add` is the idealized unbounded
version, which agrees with `Add64` whenever no wrap or clamp occurs.
The `float64` → `int` conversion is truncation toward zero, and
`strings.Repeat`'s panic on a negative count is an `Option` result.
Wall-clock time is passed explicitly as an integer nanosecond value
`now`; the output sink is modelled by a flag saying whether its writes
fail, and the rendered line by its pre-formatting content (percentage,
repeat counts of the saucer and padding glyphs, elapsed and remaining
whole seconds).
-/

namespace ProgressBarGo

/-! ### Integer-level binary64 rounding (executable layer) -/

/-- Base-2 integer logarithm computed with structural fuel so that the
kernel can evaluate it (`fuel ≥ n` suffices; each step halves `n`). -/
def ilog2Aux : Nat → Nat → Nat
  | 0, _ => 0
  | fuel + 1, n => if 2 ≤ n then ilog2Aux fuel (n / 2) + 1 else 0

/-- Base-2 integer logarithm: for `1 ≤ n`, `2 ^ ilog2 n ≤ n < 2 ^ (ilog2 n + 1)`. -/
def ilog2 (n : Nat) : Nat := ilog2Aux n n

/-- Decides `2 ^ l ≤ a / b` for naturals `a b ≥ 1` by cross-multiplying. -/
def ge2pow (a b : Nat) (l : Int) : Bool :=
  if 0 ≤ l then b * 2 ^ l.toNat ≤ a else b ≤ a * 2 ^ (-l).toNat

/-- Binary exponent of the positive rational `a / b`: the unique `e`
with `2 ^ e ≤ a / b < 2 ^ (e + 1)`. -/
def posExp (a b : Nat) : Int :=
  let l : Int := (ilog2 a : Int) - (ilog2 b : Int)
  if ge2pow a b l then l else l - 1

/-- A binary64 value, represented as the dyadic rational `man * 2 ^ ex`. -/
structure Dy where
  man : Int
  ex : Int
  deriving DecidableEq

/-- Round the positive rational `a / b` (`a, b ≥ 1`) to the nearest
binary64 value: scale it into `[2^52, 2^53)`, then round the scaled
value to the nearest integer, ties to even. -/
def roundPosDy (a b : Nat) : Dy :=
  let scale : Int := posExp a b - 52
  let A := if 0 ≤ scale then a else a * 2 ^ (-scale).toNat
  let B := if 0 ≤ scale then b * 2 ^ scale.toNat else b
  let n := A / B
  let r := A % B
  let m := if 2 * r < B then n else if B < 2 * r then n + 1
    else if n % 2 = 0 then n else n + 1
  ⟨(m : Int), scale⟩

/-- Round the rational `a / b` (`b ≠ 0` in every use) to the nearest
binary64 value, ties to even. -/
def roundDy (a b : Int) : Dy :=
  if a = 0 then ⟨0, 0⟩
  else if (0 < a) = (0 < b) then roundPosDy a.natAbs b.natAbs
  else ⟨-(roundPosDy a.natAbs b.natAbs).man, (roundPosDy a.natAbs b.natAbs).ex⟩

/-- Round the rational `(a / b) * 2 ^ e` to the nearest binary64 value. -/
def roundScaled (a b : Int) (e : Int) : Dy :=
  if 0 ≤ e then roundDy (a * 2 ^ e.toNat) b else roundDy a (b * 2 ^ (-e).toNat)

/-- Go conversion `float64(n)` of an integer. -/
def fofInt (n : Int) : Dy := roundDy n 1

/-- Go `float64` multiplication: correctly rounded exact product. -/
def fmulD (x y : Dy) : Dy := roundScaled (x.man * y.man) 1 (x.ex + y.ex)

/-- Go `float64` division: correctly rounded exact quotient. -/
def fdivD (x y : Dy) : Dy := roundScaled x.man y.man (x.ex - y.ex)

/-- Go `float64` addition: correctly rounded exact sum. -/
def faddD (x y : Dy) : Dy :=
  let e := min x.ex y.ex
  roundScaled (x.man * 2 ^ (x.ex - e).toNat + y.man * 2 ^ (y.ex - e).toNat) 1 e

/-- Go `float64` subtraction: correctly rounded exact difference. -/
def fsubD (x y : Dy) : Dy := faddD x ⟨-y.man, y.ex⟩

/-- Go conversion `int(x)` of a `float64`: exact truncation toward zero
(`ftrunc64` below adds the `int64` range clamp). -/
def ftruncD (x : Dy) : Int :=
  if 0 ≤ x.ex then x.man * 2 ^ x.ex.toNat
  else if x.man < 0 then -((x.man.natAbs / 2 ^ (-x.ex).toNat : Nat) : Int)
  else ((x.man.natAbs / 2 ^ (-x.ex).toNat : Nat) : Int)

/-- Go 64-bit integer division (`/` truncates toward zero). -/
def tdiv (a b : Int) : Int :=
  if a < 0 then -((a.natAbs / b.natAbs : Nat) : Int) else ((a.natAbs / b.natAbs : Nat) : Int)

/-- Go 64-bit integer remainder (`%`, sign of the dividend). -/
def tmod (a b : Int) : Int := a - b * tdiv a b

/-- Two's-complement wraparound of Go's 64-bit `int` addition. -/
def wrap64 (n : Int) : Int := (n + 2 ^ 63) % 2 ^ 64 - 2 ^ 63

/-- Go's `float64` → `int` conversion with the 64-bit range made
explicit: truncation toward zero, except that a result outside the
`int64` range is implementation-defined by the Go spec and yields the
x86-64 integer indefinite value `-2^63` on amd64. -/
def ftrunc64 (x : Dy) : Int :=
  if ftruncD x < -2 ^ 63 ∨ 2 ^ 63 - 1 < ftruncD x then -2 ^ 63 else ftruncD x

/-! ### Rational-level rounding specification (proof layer) -/

/-- The rational `2 ^ e` for an integer exponent. -/
def pow2 (e : Int) : ℚ := (2 : ℚ) ^ e

/-- The rational denoted by a dyadic representation. -/
def Dy.val (x : Dy) : ℚ := (x.man : ℚ) * pow2 x.ex

/-- Round a rational to the nearest integer, ties to even. -/
def rnd (x : ℚ) : Int :=
  if x - ⌊x⌋ < 1 / 2 then ⌊x⌋
  else if (1 : ℚ) / 2 < x - ⌊x⌋ then ⌊x⌋ + 1
  else if 2 ∣ ⌊x⌋ then ⌊x⌋ else ⌊x⌋ + 1

/-- Round `q` to the nearest multiple of `2 ^ scale`, ties to even. -/
def roundAt (q : ℚ) (scale : Int) : ℚ := (rnd (q / pow2 scale) : ℚ) * pow2 scale

/-- Specification of rounding a positive rational to binary64. -/
def roundPos (q : ℚ) : ℚ := roundAt q (posExp q.num.natAbs q.den - 52)

/-- Specification of rounding any rational to binary64, ties to even. -/
def roundF (q : ℚ) : ℚ :=
  if q = 0 then 0 else if q < 0 then -roundPos (-q) else roundPos q

/-- Specification of Go conversion `int(x)`: truncation toward zero. -/
def qtrunc (q : ℚ) : Int := if q < 0 then -⌊-q⌋ else ⌊q⌋

/-! ### The progress bar (from `progressbar.go`) -/

/-- Theme defines the elements of the bar (`type Theme struct`). -/
structure Theme where
  Saucer : String
  SaucerPadding : String
  BarStart : String
  BarEnd : String
  deriving DecidableEq

/-- Mutable state of the bar (`type state struct`); `lastShown` and
`startTime` hold integer nanosecond clock values. -/
structure State where
  currentNum : Int
  currentPercent : Int
  lastPercent : Int
  currentSaucerSize : Int
  lastShown : Int
  startTime : Int
  deriving DecidableEq

/-- Immutable configuration (`type config struct`).  The output writer
is modelled by whether its writes fail (`writerFails`); Go's `io.Writer`
value itself carries no other behaviour observed by this code. -/
structure Config where
  max : Int
  width : Int
  writerFails : Bool
  theme : Theme
  renderWithBlankState : Bool
  deriving DecidableEq

deriving instance DecidableEq for Except

/-- A progress bar: state plus configuration (`type ProgressBar struct`;
the mutex is a no-op in this sequential model, see §5 of the spec). -/
structure ProgressBar where
  state : State
  config : Config
  deriving DecidableEq

/-- Errors returned by the Go code, by their message. -/
inductive Err where
  /-- The error `"max must be greater than 0"`. -/
  | invalidConfiguration
  /-- The error `"current number exceeds max"`. -/
  | maximumExceeded
  /-- An error returned by `io.WriteString` (or `f.Sync`) on the sink. -/
  | writeFailure
  deriving DecidableEq

/-- Pre-formatting content of one rendered line
`"\r%4d%% <BarStart><Saucer*n><Padding*(width-n)><BarEnd> [elapsed:left]"`:
the percentage, the two `strings.Repeat` counts, and the two duration
operands in whole seconds. -/
structure Line where
  percent : Int
  saucerCells : Int
  paddingCells : Int
  elapsedSeconds : Int
  leftSeconds : Int
  deriving DecidableEq

/-- Result of a call that may render: either a Go panic (negative
`strings.Repeat` count), or a returned error, or success with or
without a rendered line. -/
inductive Outcome where
  /-- The call panics inside `strings.Repeat`. -/
  | panicked
  /-- The call returns a non-nil error. -/
  | errorOut (e : Err)
  /-- The call returns nil without writing to the sink. -/
  | okNoRender
  /-- The call returns nil after writing one line to the sink. -/
  | okRender (line : Line)
  deriving DecidableEq

/-- Value of `time.Duration(d).Seconds()` for `d` nanoseconds: Go
computes `float64(d / 1e9) + float64(d % 1e9) / 1e9` in `float64`. -/
def durSeconds (d : Int) : Dy :=
  faddD (fofInt (tdiv d 1000000000)) (fdivD (fofInt (tmod d 1000000000)) (fofInt 1000000000))

/-- Model of `renderProgressBar(c config, s state) error`.  `none`
models a panic: `strings.Repeat` is called with the counts
`s.currentSaucerSize` and `c.width - s.currentSaucerSize` and panics on
a negative count (the format arguments are evaluated before any write).
Otherwise the write happens and either fails (`writeFailure`) or yields
the line. -/
def renderProgressBar (c : Config) (s : State) (now : Int) : Option (Except Err Line) :=
  let leftTime : Dy :=
    if 0 < s.currentNum then
      fmulD (fdivD (durSeconds (now - s.startTime)) (fofInt s.currentNum))
        (fsubD (fofInt c.max) (fofInt s.currentNum))
    else ⟨0, 0⟩
  if s.currentSaucerSize < 0 ∨ c.width - s.currentSaucerSize < 0 then none
  else if c.writerFails then some (.error .writeFailure)
  else some (.ok
    { percent := s.currentPercent
      saucerCells := s.currentSaucerSize
      paddingCells := c.width - s.currentSaucerSize
      elapsedSeconds := ftruncD (durSeconds (now - s.startTime))
      leftSeconds := ftruncD leftTime })

/-- Model of `getBlankState()`: zero progress, clocks set to `now`. -/
def getBlankState (now : Int) : State :=
  { currentNum := 0
    currentPercent := 0
    lastPercent := 0
    currentSaucerSize := 0
    lastShown := now
    startTime := now }

/-- A construction option (`type Option func(p *ProgressBar)`); the four
recognized options mutate one configuration field each. -/
inductive Opt where
  /-- OptionSetWidth sets the width of the bar. -/
  | setWidth (s : Int)
  /-- OptionSetTheme sets the elements the bar is constructed of. -/
  | setTheme (t : Theme)
  /-- OptionSetWriter sets the output writer (modelled by whether its writes fail). -/
  | setWriter (fails : Bool)
  /-- OptionSetRenderBlankState sets whether to render a 0% bar on construction. -/
  | setRenderBlankState (r : Bool)

/-- Application of one option to the bar under construction. -/
def applyOpt (b : ProgressBar) : Opt → ProgressBar
  | .setWidth s => { b with config := { b.config with width := s } }
  | .setTheme t => { b with config := { b.config with theme := t } }
  | .setWriter fails => { b with config := { b.config with writerFails := fails } }
  | .setRenderBlankState r => { b with config := { b.config with renderWithBlankState := r } }

/-- The default theme `{Saucer: "█", SaucerPadding: " ", BarStart: "|", BarEnd: "|"}`. -/
def defaultTheme : Theme :=
  { Saucer := "█", SaucerPadding := " ", BarStart := "|", BarEnd := "|" }

/-- First half of `NewOptions(max int, options ...Option)`: the bar
built from the defaults (width 40, standard theme, standard output,
no blank render) with the options applied in order. -/
def buildBar (max : Int) (options : List Opt) (now : Int) : ProgressBar :=
  options.foldl applyOpt
    { state := getBlankState now
      config :=
        { writerFails := false
          theme := defaultTheme
          width := 40
          max := max
          renderWithBlankState := false } }

/-- Model of `NewOptions(max int, options ...Option)`, continued: builds
the bar via `buildBar`, then if render-blank-state is set calls
`RenderBlank`, whose error is discarded but whose panic propagates. -/
def NewOptions (max : Int) (options : List Opt) (now : Int) : Option ProgressBar :=
  let b := buildBar max options now
  if b.config.renderWithBlankState then
    match renderProgressBar b.config b.state now with
    | none => none
    | some _ => some b
  else some b

/-- Model of `New(max int)`. -/
def New (max : Int) (now : Int) : Option ProgressBar := NewOptions max [] now

/-- Model of `(p *ProgressBar) RenderBlank() error`: renders the current
state without mutating it. -/
def RenderBlank (p : ProgressBar) (now : Int) : Option (Except Err Line) :=
  renderProgressBar p.config p.state now

/-- Model of `(p *ProgressBar) Reset()`: state is reinitialized to the
blank state at the current time; the configuration is untouched. -/
def Reset (p : ProgressBar) (now : Int) : ProgressBar :=
  { p with state := getBlankState now }

/-- The value `percent := float64(currentNum) / float64(max)` computed
in `Add` for a counter value `n`. -/
def percentFloat (max n : Int) : Dy := fdivD (fofInt n) (fofInt max)

/-- The value `int(percent * 100)` computed in `Add` for a counter value `n`. -/
def computePercent (max n : Int) : Int := ftruncD (fmulD (percentFloat max n) (fofInt 100))

/-- The value `int(percent * float64(width))` computed in `Add` for a
counter value `n`. -/
def computeSaucerSize (max width n : Int) : Int :=
  ftruncD (fmulD (percentFloat max n) (fofInt width))

/-- The state `Add` leaves behind once past the `max == 0` guard. -/
def addState (c : Config) (s : State) (num : Int) : State :=
  { s with
    currentNum := s.currentNum + num
    currentPercent := computePercent c.max (s.currentNum + num)
    currentSaucerSize := computeSaucerSize c.max c.width (s.currentNum + num)
    lastPercent := computePercent c.max (s.currentNum + num) }

/-- Model of `(p *ProgressBar) Add(num int) error`, line for line:
guard `max == 0`; mutate `currentNum`; recompute `percent`,
`currentSaucerSize`, `currentPercent` in `float64`; decide `updateBar`;
set `lastPercent`; fail if `currentNum > max`; otherwise render when
`updateBar`.  Returns the state the bar is left with and the call's
outcome. -/
def Add (c : Config) (s : State) (num : Int) (now : Int) : State × Outcome :=
  if c.max = 0 then (s, .errorOut .invalidConfiguration)
  else
    let currentNum := s.currentNum + num
    let currentPercent := computePercent c.max currentNum
    let updateBar := currentPercent ≠ s.lastPercent ∧ 0 < currentPercent
    let s' : State := addState c s num
    if c.max < currentNum then (s', .errorOut .maximumExceeded)
    else if updateBar then
      match renderProgressBar c s' now with
      | none => (s', .panicked)
      | some (.error e) => (s', .errorOut e)
      | some (.ok line) => (s', .okRender line)
    else (s', .okNoRender)

/-- The value `int(percent * 100)` with the `int64` range of the
conversion made explicit (amd64 clamp). -/
def computePercent64 (max n : Int) : Int := ftrunc64 (fmulD (percentFloat max n) (fofInt 100))

/-- The value `int(percent * float64(width))` with the `int64` range of
the conversion made explicit (amd64 clamp). -/
def computeSaucerSize64 (max width n : Int) : Int :=
  ftrunc64 (fmulD (percentFloat max n) (fofInt width))

/-- The state `Add` leaves behind once past the `max == 0` guard, with
Go's 64-bit integer semantics made explicit: `currentNum += num` wraps
(two's complement) and the conversions clamp. -/
def addState64 (c : Config) (s : State) (num : Int) : State :=
  { s with
    currentNum := wrap64 (s.currentNum + num)
    currentPercent := computePercent64 c.max (wrap64 (s.currentNum + num))
    currentSaucerSize := computeSaucerSize64 c.max c.width (wrap64 (s.currentNum + num))
    lastPercent := computePercent64 c.max (wrap64 (s.currentNum + num)) }

/-- Model of `Add` with Go's 64-bit integer semantics made explicit:
the counter addition wraps at 2^63 and the `float64` → `int`
conversions clamp out-of-range results to `-2^63` (amd64).  It agrees
with `Add` whenever no wrap or clamp occurs; the difference is
observable only for counters beyond roughly `2^56`. -/
def Add64 (c : Config) (s : State) (num : Int) (now : Int) : State × Outcome :=
  if c.max = 0 then (s, .errorOut .invalidConfiguration)
  else
    let currentNum := wrap64 (s.currentNum + num)
    let currentPercent := computePercent64 c.max currentNum
    let updateBar := currentPercent ≠ s.lastPercent ∧ 0 < currentPercent
    let s' : State := addState64 c s num
    if c.max < currentNum then (s', .errorOut .maximumExceeded)
    else if updateBar then
      match renderProgressBar c s' now with
      | none => (s', .panicked)
      | some (.error e) => (s', .errorOut e)
      | some (.ok line) => (s', .okRender line)
    else (s', .okNoRender)

/-- A configuration fixture for concrete scenarios: the given `max` and
`width`, the default theme, a healthy sink, and no blank render. -/
def cfgOf (m w : Int) : Config :=
  { max := m, width := w, writerFails := false, theme := defaultTheme,
    renderWithBlankState := false }

/-! ### Correctness of the exponent computation -/

theorem ilog2Aux_spec (fuel : Nat) : ∀ n : Nat, 1 ≤ n → n ≤ fuel →
    2 ^ ilog2Aux fuel n ≤ n ∧ n < 2 ^ (ilog2Aux fuel n + 1) := by
  induction fuel with
  | zero => intro n h1 h2; omega
  | succ fuel ih =>
    intro n h1 h2
    simp only [ilog2Aux]
    by_cases h : 2 ≤ n
    · rw [if_pos h]
      obtain ⟨lo, hi⟩ := ih (n / 2) (by omega) (by omega)
      have e1 : 2 ^ (ilog2Aux fuel (n / 2) + 1) = 2 * 2 ^ ilog2Aux fuel (n / 2) := by
        rw [pow_succ]; ring
      have e2 : 2 ^ (ilog2Aux fuel (n / 2) + 1 + 1) = 2 * 2 ^ (ilog2Aux fuel (n / 2) + 1) := by
        rw [pow_succ _ (ilog2Aux fuel (n / 2) + 1)]; ring
      omega
    · rw [if_neg h]
      simpa using by omega

theorem ilog2_spec (n : Nat) (h : 1 ≤ n) : 2 ^ ilog2 n ≤ n ∧ n < 2 ^ (ilog2 n + 1) :=
  ilog2Aux_spec n n h le_rfl

theorem pow2_pos (e : Int) : 0 < pow2 e := zpow_pos (by norm_num) e

theorem pow2_ne_zero (e : Int) : pow2 e ≠ 0 := ne_of_gt (pow2_pos e)

theorem pow2_add (a b : Int) : pow2 (a + b) = pow2 a * pow2 b :=
  zpow_add₀ (by norm_num) a b

theorem pow2_natCast (k : Nat) : pow2 (k : Int) = ((2 ^ k : ℕ) : ℚ) := by
  simp [pow2, zpow_natCast]

theorem pow2_toNat (e : Int) (h : 0 ≤ e) : ((2 ^ e.toNat : ℕ) : ℚ) = pow2 e := by
  rw [← pow2_natCast, Int.toNat_of_nonneg h]

theorem pow2_lt_pow2 (a b : Int) (h : a < b) : pow2 a < pow2 b :=
  zpow_lt_zpow_right₀ (by norm_num) h

theorem pow2_le_pow2 (a b : Int) (h : a ≤ b) : pow2 a ≤ pow2 b :=
  zpow_le_zpow_right₀ (by norm_num) h

theorem ge2pow_iff (a b : Nat) (hb : 0 < b) (l : Int) :
    ge2pow a b l = true ↔ pow2 l ≤ (a : ℚ) / b := by
  have hbq : (0 : ℚ) < b := by exact_mod_cast hb
  unfold ge2pow
  by_cases h : 0 ≤ l
  · rw [if_pos h, decide_eq_true_iff, le_div_iff₀ hbq, ← pow2_toNat l h]
    push_cast
    rw [mul_comm]
    exact_mod_cast Iff.rfl
  · rw [if_neg h, decide_eq_true_iff]
    have he : pow2 l = 1 / pow2 (-l) := by
      rw [one_div, pow2, pow2, ← zpow_neg, neg_neg]
    rw [he, ← pow2_toNat (-l) (by omega), div_le_div_iff₀ (by positivity) hbq]
    push_cast
    rw [one_mul]
    exact_mod_cast Iff.rfl

theorem posExp_spec (a b : Nat) (ha : 1 ≤ a) (hb : 1 ≤ b) :
    pow2 (posExp a b) ≤ (a : ℚ) / b ∧ (a : ℚ) / b < pow2 (posExp a b + 1) := by
  obtain ⟨la1, la2⟩ := ilog2_spec a ha
  obtain ⟨lb1, lb2⟩ := ilog2_spec b hb
  have hbq : (0 : ℚ) < b := by exact_mod_cast hb
  have hla2 : (a : ℚ) < pow2 ((ilog2 a : Int) + 1) := by
    rw [show ((ilog2 a : Int) + 1) = ((ilog2 a + 1 : ℕ) : Int) by push_cast; ring,
      pow2_natCast]
    exact_mod_cast la2
  have hla1 : pow2 (ilog2 a : Int) ≤ (a : ℚ) := by
    rw [pow2_natCast]; exact_mod_cast la1
  have hlb1 : pow2 (ilog2 b : Int) ≤ (b : ℚ) := by
    rw [pow2_natCast]; exact_mod_cast lb1
  have hlb2 : (b : ℚ) < pow2 ((ilog2 b : Int) + 1) := by
    rw [show ((ilog2 b : Int) + 1) = ((ilog2 b + 1 : ℕ) : Int) by push_cast; ring,
      pow2_natCast]
    exact_mod_cast lb2
  unfold posExp
  by_cases hge : ge2pow a b ((ilog2 a : Int) - (ilog2 b : Int)) = true
  · rw [if_pos hge]
    refine ⟨(ge2pow_iff a b (by omega) _).1 hge, ?_⟩
    rw [div_lt_iff₀ hbq]
    calc (a : ℚ) < pow2 ((ilog2 a : Int) + 1) := hla2
      _ = pow2 ((ilog2 a : Int) - ilog2 b + 1) * pow2 (ilog2 b : Int) := by
          rw [← pow2_add]; ring_nf
      _ ≤ pow2 ((ilog2 a : Int) - ilog2 b + 1) * b := by
          exact mul_le_mul_of_nonneg_left hlb1 (le_of_lt (pow2_pos _))
  · rw [if_neg hge]
    constructor
    · rw [le_div_iff₀ hbq]
      calc pow2 ((ilog2 a : Int) - ilog2 b - 1) * (b : ℚ)
          ≤ pow2 ((ilog2 a : Int) - ilog2 b - 1) * pow2 ((ilog2 b : Int) + 1) := by
            exact mul_le_mul_of_nonneg_left (le_of_lt hlb2) (le_of_lt (pow2_pos _))
        _ = pow2 (ilog2 a : Int) := by rw [← pow2_add]; ring_nf
        _ ≤ (a : ℚ) := hla1
    · have := (ge2pow_iff a b (by omega) ((ilog2 a : Int) - (ilog2 b : Int))).not.1
        (by simpa using hge)
      rw [show (ilog2 a : Int) - (ilog2 b : Int) - 1 + 1 = (ilog2 a : Int) - ilog2 b by ring]
      exact lt_of_not_le this

theorem expUniq (q : ℚ) (e e' : Int) (h1 : pow2 e ≤ q) (h2 : q < pow2 (e + 1))
    (h1' : pow2 e' ≤ q) (h2' : q < pow2 (e' + 1)) : e = e' := by
  have a1 : pow2 e < pow2 (e' + 1) := lt_of_le_of_lt h1 h2'
  have a2 : pow2 e' < pow2 (e + 1) := lt_of_le_of_lt h1' h2
  rw [pow2, pow2] at a1 a2
  have b1 : e < e' + 1 := (zpow_lt_zpow_iff_right₀ (by norm_num : (1 : ℚ) < 2)).1 a1
  have b2 : e' < e + 1 := (zpow_lt_zpow_iff_right₀ (by norm_num : (1 : ℚ) < 2)).1 a2
  omega

/-! ### Basic facts about rounding to nearest -/

theorem rnd_ge_floor (x : ℚ) : ⌊x⌋ ≤ rnd x := by
  unfold rnd; split_ifs <;> omega

theorem rnd_le_floor_add_one (x : ℚ) : rnd x ≤ ⌊x⌋ + 1 := by
  unfold rnd; split_ifs <;> omega

theorem rnd_mono (x y : ℚ) (h : x ≤ y) : rnd x ≤ rnd y := by
  rcases eq_or_lt_of_le (Int.floor_le_floor h) with heq | hlt
  · unfold rnd
    rw [← heq]
    split_ifs <;> first | omega | linarith
  · calc rnd x ≤ ⌊x⌋ + 1 := rnd_le_floor_add_one x
      _ ≤ ⌊y⌋ := by omega
      _ ≤ rnd y := rnd_ge_floor y

theorem floor_natCast_div (A B : Nat) (hB : 0 < B) :
    ⌊(A : ℚ) / B⌋ = ((A / B : ℕ) : Int) := by
  have hBq : (0 : ℚ) < B := by exact_mod_cast hB
  have hup : A < (A / B + 1) * B := by
    have hdm := Nat.div_add_mod A B
    have hm : A % B < B := Nat.mod_lt A hB
    calc A = B * (A / B) + A % B := hdm.symm
      _ < B * (A / B) + B := by omega
      _ = (A / B + 1) * B := by ring
  rw [Int.floor_eq_iff]
  constructor
  · rw [le_div_iff₀ hBq]
    exact_mod_cast Nat.div_mul_le_self A B
  · rw [div_lt_iff₀ hBq]
    push_cast
    exact_mod_cast hup

theorem fract_natCast_div (A B : Nat) (hB : 0 < B) :
    (A : ℚ) / B - (⌊(A : ℚ) / B⌋ : ℚ) = ((A % B : ℕ) : ℚ) / B := by
  have hBq : (0 : ℚ) < B := by exact_mod_cast hB
  rw [floor_natCast_div A B hB, eq_div_iff (ne_of_gt hBq), sub_mul,
    div_mul_cancel₀ _ (ne_of_gt hBq), sub_eq_iff_eq_add]
  have key := congrArg (Nat.cast : ℕ → ℚ) (Nat.mod_add_div' A B)
  push_cast at key
  rw [Int.cast_natCast]
  linarith [key]

theorem rnd_natCast_div (A B : Nat) (hB : 0 < B) :
    rnd ((A : ℚ) / B) =
      (if 2 * (A % B) < B then ((A / B : ℕ) : Int)
       else if B < 2 * (A % B) then ((A / B : ℕ) : Int) + 1
       else if A / B % 2 = 0 then ((A / B : ℕ) : Int) else ((A / B : ℕ) : Int) + 1) := by
  have hBq : (0 : ℚ) < B := by exact_mod_cast hB
  have hfr := fract_natCast_div A B hB
  rw [floor_natCast_div A B hB] at hfr
  unfold rnd
  rw [floor_natCast_div A B hB]
  have c1 : ((A : ℚ) / B - ((((A / B : ℕ) : Int)) : ℚ) < 1 / 2) ↔ (2 * (A % B) < B) := by
    rw [hfr, div_lt_div_iff₀ hBq (by norm_num : (0 : ℚ) < 2),
      show ((A % B : ℕ) : ℚ) * 2 = ((2 * (A % B) : ℕ) : ℚ) by push_cast; ring,
      show (1 : ℚ) * B = ((B : ℕ) : ℚ) by ring]
    exact Nat.cast_lt
  have c2 : ((1 : ℚ) / 2 < (A : ℚ) / B - ((((A / B : ℕ) : Int)) : ℚ)) ↔ (B < 2 * (A % B)) := by
    rw [hfr, div_lt_div_iff₀ (by norm_num : (0 : ℚ) < 2) hBq,
      show ((A % B : ℕ) : ℚ) * 2 = ((2 * (A % B) : ℕ) : ℚ) by push_cast; ring,
      show (1 : ℚ) * B = ((B : ℕ) : ℚ) by ring]
    exact Nat.cast_lt
  have c3 : (2 ∣ ((A / B : ℕ) : Int)) ↔ (A / B % 2 = 0) := by omega
  simp only [c1, c2, c3]

/-! ### The integer-level rounding agrees with the rational specification -/

theorem posExp_eq_of_ratio (a b : Nat) (ha : 1 ≤ a) (hb : 1 ≤ b) :
    posExp ((a : ℚ) / b).num.natAbs ((a : ℚ) / b).den = posExp a b := by
  set q : ℚ := (a : ℚ) / b with hq
  have hbq : (0 : ℚ) < b := by exact_mod_cast hb
  have haq : (0 : ℚ) < a := by exact_mod_cast ha
  have hqpos : 0 < q := div_pos haq hbq
  have hnum : 0 < q.num := Rat.num_pos.2 hqpos
  have hnum1 : 1 ≤ q.num.natAbs := by omega
  have hden1 : 1 ≤ q.den := q.pos
  have hrep : (q.num.natAbs : ℚ) / (q.den : ℚ) = q := by
    have h1 : ((q.num.natAbs : ℕ) : ℚ) = ((q.num : ℤ) : ℚ) := by
      rw [Int.cast_natAbs, Int.cast_abs,
        abs_of_nonneg (show (0 : ℚ) ≤ (q.num : ℚ) by exact_mod_cast le_of_lt hnum)]
    rw [h1, Rat.num_div_den]
  obtain ⟨s1, s2⟩ := posExp_spec q.num.natAbs q.den hnum1 hden1
  rw [hrep] at s1 s2
  obtain ⟨t1, t2⟩ := posExp_spec a b ha hb
  exact expUniq q _ _ s1 s2 t1 t2

theorem roundPosDy_val (a b : Nat) (ha : 1 ≤ a) (hb : 1 ≤ b) :
    (roundPosDy a b).val = roundPos ((a : ℚ) / b) := by
  have hbq : (0 : ℚ) < b := by exact_mod_cast hb
  unfold roundPos roundAt
  rw [posExp_eq_of_ratio a b ha hb]
  unfold roundPosDy Dy.val
  set scale : Int := posExp a b - 52 with hscale
  by_cases hs : 0 ≤ scale
  · simp only [if_pos hs]
    have hB : 0 < b * 2 ^ scale.toNat := by positivity
    have hx : (a : ℚ) / b / pow2 scale = ((a : ℕ) : ℚ) / ((b * 2 ^ scale.toNat : ℕ) : ℚ) := by
      rw [div_div, ← pow2_toNat scale hs]
      push_cast
      ring_nf
    rw [hx, rnd_natCast_div a (b * 2 ^ scale.toNat) hB]
    push_cast [apply_ite (fun z : Int => (z : ℚ) * pow2 scale)]
    ring_nf
  · simp only [if_neg hs]
    have hB : 0 < b := hb
    have hx : (a : ℚ) / b / pow2 scale =
        ((a * 2 ^ (-scale).toNat : ℕ) : ℚ) / ((b : ℕ) : ℚ) := by
      have h1 : pow2 scale * pow2 (-scale) = 1 := by
        rw [← pow2_add]; simp [pow2]
      have h2 : ((2 ^ (-scale).toNat : ℕ) : ℚ) = pow2 (-scale) :=
        pow2_toNat (-scale) (by omega)
      rw [Nat.cast_mul, h2, div_div,
        div_eq_div_iff (mul_ne_zero (ne_of_gt hbq) (pow2_ne_zero scale)) (ne_of_gt hbq)]
      rw [show (a : ℚ) * pow2 (-scale) * ((b : ℚ) * pow2 scale) =
        (a : ℚ) * (b : ℚ) * (pow2 scale * pow2 (-scale)) from by ring, h1, mul_one]
    rw [hx, rnd_natCast_div (a * 2 ^ (-scale).toNat) b hB]
    push_cast [apply_ite (fun z : Int => (z : ℚ) * pow2 scale)]
    ring_nf

theorem Dy.val_negMan (x : Dy) : (Dy.mk (-x.man) x.ex).val = -x.val := by
  simp only [Dy.val]
  push_cast
  ring

theorem natAbs_div_cast (a b : Int) :
    ((a.natAbs : ℕ) : ℚ) / ((b.natAbs : ℕ) : ℚ) = |(a : ℚ) / b| := by
  rw [abs_div, Int.cast_natAbs, Int.cast_natAbs, Int.cast_abs, Int.cast_abs]

theorem roundDy_val (a b : Int) (hb : b ≠ 0) :
    (roundDy a b).val = roundF ((a : ℚ) / b) := by
  unfold roundDy roundF
  by_cases ha : a = 0
  · simp [ha, Dy.val]
  · have haq : (a : ℚ) ≠ 0 := Int.cast_ne_zero.2 ha
    have hbq : (b : ℚ) ≠ 0 := Int.cast_ne_zero.2 hb
    have hq0 : (a : ℚ) / b ≠ 0 := div_ne_zero haq hbq
    rw [if_neg ha, if_neg hq0]
    have hna : 1 ≤ a.natAbs := by omega
    have hnb : 1 ≤ b.natAbs := by omega
    have hval := roundPosDy_val a.natAbs b.natAbs hna hnb
    rw [natAbs_div_cast a b] at hval
    rcases lt_trichotomy ((a : ℚ) / b) 0 with hneg | hzero | hpos
    · have hcond : ¬((0 < a) = (0 < b)) := by
        simp only [eq_iff_iff]
        rcases div_neg_iff.1 hneg with ⟨h1, h2⟩ | ⟨h1, h2⟩
        · have ha2 : 0 < a := by exact_mod_cast h1
          have hb2 : b < 0 := by exact_mod_cast h2
          omega
        · have ha2 : a < 0 := by exact_mod_cast h1
          have hb2 : 0 < b := by exact_mod_cast h2
          omega
      rw [if_neg hcond, if_pos hneg, Dy.val_negMan, hval, abs_of_neg hneg]
    · exact absurd hzero hq0
    · have hcond : (0 < a) = (0 < b) := by
        simp only [eq_iff_iff]
        rcases div_pos_iff.1 hpos with ⟨h1, h2⟩ | ⟨h1, h2⟩
        · have ha2 : 0 < a := by exact_mod_cast h1
          have hb2 : 0 < b := by exact_mod_cast h2
          omega
        · have ha2 : a < 0 := by exact_mod_cast h1
          have hb2 : b < 0 := by exact_mod_cast h2
          omega
      rw [if_pos hcond, if_neg (not_lt.2 (le_of_lt hpos)), hval, abs_of_pos hpos]

theorem pow2_toNat' (e : Int) (h : 0 ≤ e) : (2 : ℚ) ^ e.toNat = pow2 e := by
  rw [← pow2_toNat e h]
  push_cast
  ring

theorem pow2_neg (e : Int) : pow2 (-e) = (pow2 e)⁻¹ := by
  rw [pow2, pow2, ← zpow_neg]

theorem roundScaled_val (a b e : Int) (hb : b ≠ 0) :
    (roundScaled a b e).val = roundF ((a : ℚ) / b * pow2 e) := by
  unfold roundScaled
  by_cases hs : 0 ≤ e
  · rw [if_pos hs, roundDy_val _ _ hb]
    congr 1
    push_cast
    rw [pow2_toNat' e hs]
    ring
  · rw [if_neg hs]
    have hbne : b * 2 ^ (-e).toNat ≠ 0 := by
      apply mul_ne_zero hb
      positivity
    rw [roundDy_val _ _ hbne]
    congr 1
    push_cast
    rw [pow2_toNat' (-e) (by omega)]
    have h1 : pow2 e = (pow2 (-e))⁻¹ := by
      nth_rewrite 1 [show e = - -e from by ring]
      rw [pow2_neg]
    rw [h1, ← div_eq_mul_inv, div_div]

theorem fofInt_val (n : Int) : (fofInt n).val = roundF (n : ℚ) := by
  unfold fofInt
  rw [roundDy_val n 1 one_ne_zero]
  norm_num

theorem fmulD_val (x y : Dy) : (fmulD x y).val = roundF (x.val * y.val) := by
  unfold fmulD
  rw [roundScaled_val _ _ _ one_ne_zero]
  congr 1
  unfold Dy.val
  push_cast
  rw [pow2_add]
  ring

theorem fdivD_val (x y : Dy) (hy : y.man ≠ 0) :
    (fdivD x y).val = roundF (x.val / y.val) := by
  unfold fdivD
  rw [roundScaled_val _ _ _ hy]
  congr 1
  unfold Dy.val
  rw [show x.ex - y.ex = x.ex + -y.ex from by ring, pow2_add, pow2_neg]
  have h1 : pow2 y.ex ≠ 0 := pow2_ne_zero y.ex
  have h2 : (y.man : ℚ) ≠ 0 := Int.cast_ne_zero.2 hy
  field_simp

theorem faddD_val (x y : Dy) : (faddD x y).val = roundF (x.val + y.val) := by
  unfold faddD
  rw [roundScaled_val _ _ _ one_ne_zero]
  congr 1
  unfold Dy.val
  push_cast
  rw [pow2_toNat' (x.ex - min x.ex y.ex) (by omega),
    pow2_toNat' (y.ex - min x.ex y.ex) (by omega), div_one, add_mul, mul_assoc, mul_assoc,
    ← pow2_add, ← pow2_add,
    show x.ex - min x.ex y.ex + min x.ex y.ex = x.ex from by ring,
    show y.ex - min x.ex y.ex + min x.ex y.ex = y.ex from by ring]

theorem fsubD_val (x y : Dy) : (fsubD x y).val = roundF (x.val - y.val) := by
  unfold fsubD
  rw [faddD_val, Dy.val_negMan, ← sub_eq_add_neg]

theorem qtrunc_intCast (z : Int) : qtrunc (z : ℚ) = z := by
  unfold qtrunc
  by_cases hz : (z : ℚ) < 0
  · rw [if_pos hz, ← Int.cast_neg, Int.floor_intCast]
    ring
  · rw [if_neg hz, Int.floor_intCast]

theorem ftruncD_val (x : Dy) : ftruncD x = qtrunc x.val := by
  unfold ftruncD
  by_cases he : 0 ≤ x.ex
  · rw [if_pos he]
    have hv : x.val = ((x.man * 2 ^ x.ex.toNat : ℤ) : ℚ) := by
      unfold Dy.val
      push_cast
      rw [pow2_toNat' x.ex he]
    rw [hv, qtrunc_intCast]
  · have h1 : pow2 x.ex = ((2 ^ (-x.ex).toNat : ℕ) : ℚ)⁻¹ := by
      rw [pow2_toNat (-x.ex) (by omega)]
      nth_rewrite 1 [show x.ex = - -x.ex from by ring]
      rw [pow2_neg]
    have hv : x.val = (x.man : ℚ) / ((2 ^ (-x.ex).toNat : ℕ) : ℚ) := by
      unfold Dy.val
      rw [h1, ← div_eq_mul_inv]
    have h2k : (0 : ℚ) < ((2 ^ (-x.ex).toNat : ℕ) : ℚ) := by positivity
    rw [if_neg he]
    by_cases hm : x.man < 0
    · rw [if_pos hm]
      have hvneg : x.val < 0 := by
        rw [hv]
        apply div_neg_of_neg_of_pos _ h2k
        exact_mod_cast hm
      unfold qtrunc
      rw [if_pos hvneg, hv, ← neg_div]
      rw [show -(x.man : ℚ) = ((x.man.natAbs : ℕ) : ℚ) from by
        rw [Int.cast_natAbs, Int.cast_abs, abs_of_neg (show (x.man : ℚ) < 0 by exact_mod_cast hm)]]
      rw [floor_natCast_div _ _ (by positivity)]
    · rw [if_neg hm]
      have hm' : 0 ≤ x.man := by omega
      have hvpos : ¬ x.val < 0 := by
        rw [hv]
        push_neg
        apply div_nonneg _ (le_of_lt h2k)
        exact_mod_cast hm'
      unfold qtrunc
      rw [if_neg hvpos, hv]
      rw [show (x.man : ℚ) = ((x.man.natAbs : ℕ) : ℚ) from by
        rw [Int.cast_natAbs, Int.cast_abs, abs_of_nonneg (show (0 : ℚ) ≤ (x.man : ℚ) by
          exact_mod_cast hm')]]
      rw [floor_natCast_div _ _ (by positivity)]

/-! ### Monotonicity and sign of binary64 rounding -/

theorem ratAbs_div_den (q : ℚ) (hq : 0 < q) : (q.num.natAbs : ℚ) / (q.den : ℚ) = q := by
  have hnum : 0 < q.num := Rat.num_pos.2 hq
  have h1 : ((q.num.natAbs : ℕ) : ℚ) = ((q.num : ℤ) : ℚ) := by
    rw [Int.cast_natAbs, Int.cast_abs,
      abs_of_nonneg (show (0 : ℚ) ≤ (q.num : ℚ) by exact_mod_cast le_of_lt hnum)]
  rw [h1, Rat.num_div_den]

theorem pow2_sub (a b : Int) : pow2 (a - b) = pow2 a / pow2 b := by
  rw [pow2, pow2, pow2, ← zpow_sub₀ (by norm_num : (2 : ℚ) ≠ 0)]

theorem pow2_cast52 : ((2 ^ 52 : ℤ) : ℚ) = pow2 52 := by
  rw [pow2]
  norm_num

theorem pow2_cast53 : ((2 ^ 53 : ℤ) : ℚ) = pow2 53 := by
  rw [pow2]
  norm_num

theorem roundPos_bounds (q : ℚ) (hq : 0 < q) :
    pow2 (posExp q.num.natAbs q.den) ≤ roundPos q ∧
      roundPos q ≤ pow2 (posExp q.num.natAbs q.den + 1) := by
  have hnum : 0 < q.num := Rat.num_pos.2 hq
  have hnum1 : 1 ≤ q.num.natAbs := by omega
  have hden1 : 1 ≤ q.den := q.pos
  obtain ⟨s1, s2⟩ := posExp_spec q.num.natAbs q.den hnum1 hden1
  rw [ratAbs_div_den q hq] at s1 s2
  set E := posExp q.num.natAbs q.den with hE
  have hx1 : pow2 52 ≤ q / pow2 (E - 52) := by
    rw [le_div_iff₀ (pow2_pos _), ← pow2_add]
    rw [show (52 : ℤ) + (E - 52) = E from by ring]
    exact s1
  have hx2 : q / pow2 (E - 52) < pow2 53 := by
    rw [div_lt_iff₀ (pow2_pos _), ← pow2_add]
    rw [show (53 : ℤ) + (E - 52) = E + 1 from by ring]
    exact s2
  have hf1 : (2 ^ 52 : ℤ) ≤ ⌊q / pow2 (E - 52)⌋ := by
    apply Int.le_floor.2
    rw [pow2_cast52]
    exact hx1
  have hf2 : ⌊q / pow2 (E - 52)⌋ < (2 ^ 53 : ℤ) := by
    apply Int.floor_lt.2
    rw [pow2_cast53]
    exact hx2
  have hr1 := rnd_ge_floor (q / pow2 (E - 52))
  have hr2 := rnd_le_floor_add_one (q / pow2 (E - 52))
  unfold roundPos roundAt
  rw [← hE]
  constructor
  · have e1 : pow2 E = ((2 ^ 52 : ℤ) : ℚ) * pow2 (E - 52) := by
      rw [pow2_cast52, ← pow2_add]
      congr 1
      ring
    have e2i : (2 ^ 52 : ℤ) ≤ rnd (q / pow2 (E - 52)) := by omega
    have e2 : ((2 ^ 52 : ℤ) : ℚ) ≤ (rnd (q / pow2 (E - 52)) : ℚ) := by exact_mod_cast e2i
    rw [e1]
    exact mul_le_mul_of_nonneg_right e2 (le_of_lt (pow2_pos _))
  · have e1 : pow2 (E + 1) = ((2 ^ 53 : ℤ) : ℚ) * pow2 (E - 52) := by
      rw [pow2_cast53, ← pow2_add]
      congr 1
      ring
    have e2i : rnd (q / pow2 (E - 52)) ≤ (2 ^ 53 : ℤ) := by omega
    have e2 : (rnd (q / pow2 (E - 52)) : ℚ) ≤ ((2 ^ 53 : ℤ) : ℚ) := by exact_mod_cast e2i
    rw [e1]
    exact mul_le_mul_of_nonneg_right e2 (le_of_lt (pow2_pos _))

theorem roundPos_pos (q : ℚ) (hq : 0 < q) : 0 < roundPos q :=
  lt_of_lt_of_le (pow2_pos _) (roundPos_bounds q hq).1

theorem roundPos_mono (q q' : ℚ) (hq : 0 < q) (h : q ≤ q') :
    roundPos q ≤ roundPos q' := by
  have hq' : 0 < q' := lt_of_lt_of_le hq h
  have hnum : 0 < q.num := Rat.num_pos.2 hq
  have hnum' : 0 < q'.num := Rat.num_pos.2 hq'
  obtain ⟨s1, s2⟩ := posExp_spec q.num.natAbs q.den (by omega) q.pos
  rw [ratAbs_div_den q hq] at s1 s2
  obtain ⟨t1, t2⟩ := posExp_spec q'.num.natAbs q'.den (by omega) q'.pos
  rw [ratAbs_div_den q' hq'] at t1 t2
  set E := posExp q.num.natAbs q.den with hE
  set E' := posExp q'.num.natAbs q'.den with hE'
  have hEE' : E ≤ E' := by
    have h1 : pow2 E < pow2 (E' + 1) := lt_of_le_of_lt (le_trans s1 h) t2
    rw [pow2, pow2] at h1
    have := (zpow_lt_zpow_iff_right₀ (by norm_num : (1 : ℚ) < 2)).1 h1
    omega
  rcases eq_or_lt_of_le hEE' with heq | hlt
  · unfold roundPos roundAt
    rw [← hE, ← hE', ← heq]
    apply mul_le_mul_of_nonneg_right _ (le_of_lt (pow2_pos _))
    have hdle : q / pow2 (E - 52) ≤ q' / pow2 (E - 52) :=
      (div_le_div_iff_of_pos_right (pow2_pos _)).2 h
    exact_mod_cast rnd_mono _ _ hdle
  · calc roundPos q ≤ pow2 (E + 1) := (roundPos_bounds q hq).2
      _ ≤ pow2 E' := pow2_le_pow2 _ _ (by omega)
      _ ≤ roundPos q' := (roundPos_bounds q' hq').1

theorem roundF_nonneg (q : ℚ) (h : 0 ≤ q) : 0 ≤ roundF q := by
  unfold roundF
  by_cases h0 : q = 0
  · rw [if_pos h0]
  · rw [if_neg h0, if_neg (not_lt.2 h)]
    exact le_of_lt (roundPos_pos q (lt_of_le_of_ne h (Ne.symm h0)))

theorem roundF_pos (q : ℚ) (h : 0 < q) : 0 < roundF q := by
  unfold roundF
  rw [if_neg (ne_of_gt h), if_neg (not_lt.2 (le_of_lt h))]
  exact roundPos_pos q h

theorem roundF_mono_nonneg (q q' : ℚ) (h0 : 0 ≤ q) (h : q ≤ q') :
    roundF q ≤ roundF q' := by
  by_cases hz : q = 0
  · rw [hz]
    rw [show roundF 0 = 0 from by unfold roundF; rw [if_pos rfl]]
    exact roundF_nonneg q' (by linarith)
  · have hqpos : 0 < q := lt_of_le_of_ne h0 (Ne.symm hz)
    have hq'pos : 0 < q' := lt_of_lt_of_le hqpos h
    unfold roundF
    rw [if_neg hz, if_neg (not_lt.2 h0), if_neg (ne_of_gt hq'pos),
      if_neg (not_lt.2 (le_of_lt hq'pos))]
    exact roundPos_mono q q' hqpos h

theorem qtrunc_mono (q q' : ℚ) (h : q ≤ q') : qtrunc q ≤ qtrunc q' := by
  unfold qtrunc
  by_cases h1 : q < 0 <;> by_cases h2 : q' < 0
  · rw [if_pos h1, if_pos h2]
    have := Int.floor_le_floor (neg_le_neg h)
    omega
  · rw [if_pos h1, if_neg h2]
    have ha : 0 ≤ ⌊-q⌋ := Int.floor_nonneg.2 (by linarith)
    have hb : 0 ≤ ⌊q'⌋ := Int.floor_nonneg.2 (by linarith)
    omega
  · exact absurd (lt_of_le_of_lt h h2) h1
  · rw [if_neg h1, if_neg h2]
    exact Int.floor_le_floor h

theorem Dy.man_ne_zero_of_val_pos (x : Dy) (h : 0 < x.val) : x.man ≠ 0 := by
  intro h0
  rw [Dy.val, h0] at h
  simp at h

theorem computePercent_mono (max n n' : Int) (hmax : 0 < max) (hn : 0 ≤ n) (h : n ≤ n') :
    computePercent max n ≤ computePercent max n' := by
  have hMpos : 0 < (fofInt max).val := by
    rw [fofInt_val]
    exact roundF_pos _ (by exact_mod_cast hmax)
  have hm : (fofInt max).man ≠ 0 := Dy.man_ne_zero_of_val_pos _ hMpos
  have hCpos : 0 < (fofInt 100).val := by
    rw [fofInt_val]
    exact roundF_pos _ (by norm_num)
  unfold computePercent percentFloat
  rw [ftruncD_val, ftruncD_val]
  apply qtrunc_mono
  rw [fmulD_val, fmulD_val, fdivD_val _ _ hm, fdivD_val _ _ hm]
  simp only [fofInt_val]
  have hMpos2 : 0 < roundF (max : ℚ) := roundF_pos _ (by exact_mod_cast hmax)
  have hCpos2 : 0 < roundF ((100 : ℤ) : ℚ) := roundF_pos _ (by norm_num)
  have hA : 0 ≤ roundF (n : ℚ) := roundF_nonneg _ (by exact_mod_cast hn)
  have hAle : roundF (n : ℚ) ≤ roundF (n' : ℚ) :=
    roundF_mono_nonneg _ _ (by exact_mod_cast hn) (by exact_mod_cast h)
  have hq1 : 0 ≤ roundF (n : ℚ) / roundF (max : ℚ) := div_nonneg hA (le_of_lt hMpos2)
  have hq1le : roundF (n : ℚ) / roundF (max : ℚ) ≤ roundF (n' : ℚ) / roundF (max : ℚ) :=
    (div_le_div_iff_of_pos_right hMpos2).2 hAle
  have hR : 0 ≤ roundF (roundF (n : ℚ) / roundF (max : ℚ)) := roundF_nonneg _ hq1
  have hRle := roundF_mono_nonneg _ _ hq1 hq1le
  apply roundF_mono_nonneg
  · exact mul_nonneg hR (le_of_lt hCpos2)
  · exact mul_le_mul_of_nonneg_right hRle (le_of_lt hCpos2)

/-! ### Structural lemmas about `Add`, `renderProgressBar` and `NewOptions` -/

theorem Add_state (c : Config) (s : State) (num now : Int) (h : c.max ≠ 0) :
    (Add c s num now).1 = addState c s num := by
  simp only [Add, if_neg h]
  split
  · rfl
  · split
    · split <;> rfl
    · rfl

theorem Add_exceeded (c : Config) (s : State) (num now : Int) (h : c.max ≠ 0)
    (h2 : c.max < s.currentNum + num) :
    Add c s num now = (addState c s num, .errorOut .maximumExceeded) := by
  simp only [Add, if_neg h, if_pos h2]

theorem renderProgressBar_error (c : Config) (s : State) (now : Int) (e : Err)
    (h : renderProgressBar c s now = some (.error e)) : e = .writeFailure := by
  simp only [renderProgressBar] at h
  split at h
  · simp at h
  · split at h
    · simp only [Option.some.injEq] at h
      exact (Except.error.inj h.symm)
    · simp at h

theorem applyOpt_state (b : ProgressBar) (o : Opt) : (applyOpt b o).state = b.state := by
  cases o <;> rfl

theorem foldl_applyOpt_state (options : List Opt) (b : ProgressBar) :
    (options.foldl applyOpt b).state = b.state := by
  induction options generalizing b with
  | nil => rfl
  | cons o rest ih => rw [List.foldl_cons, ih, applyOpt_state]

theorem buildBar_state (max : Int) (options : List Opt) (now : Int) :
    (buildBar max options now).state = getBlankState now :=
  foldl_applyOpt_state options _

theorem qtrunc_nonneg (q : ℚ) (h : 0 ≤ q) : 0 ≤ qtrunc q := by
  unfold qtrunc
  rw [if_neg (not_lt.2 h)]
  exact Int.floor_nonneg.2 h

theorem computePercent_nonneg (max n : Int) (hmax : 0 < max) (hn : 0 ≤ n) :
    0 ≤ computePercent max n := by
  have hMpos : 0 < (fofInt max).val := by
    rw [fofInt_val]
    exact roundF_pos _ (by exact_mod_cast hmax)
  have hm : (fofInt max).man ≠ 0 := Dy.man_ne_zero_of_val_pos _ hMpos
  unfold computePercent percentFloat
  rw [ftruncD_val]
  apply qtrunc_nonneg
  rw [fmulD_val, fdivD_val _ _ hm]
  simp only [fofInt_val]
  apply roundF_nonneg
  apply mul_nonneg
  · apply roundF_nonneg
    apply div_nonneg
    · exact roundF_nonneg _ (by exact_mod_cast hn)
    · exact le_of_lt (roundF_pos _ (by exact_mod_cast hmax))
  · exact roundF_nonneg _ (by norm_num)

theorem wrap64_eq (n : Int) (h1 : -2 ^ 63 ≤ n) (h2 : n < 2 ^ 63) : wrap64 n = n := by
  unfold wrap64
  omega

theorem ftrunc64_eq (x : Dy) (h1 : -2 ^ 63 ≤ ftruncD x) (h2 : ftruncD x ≤ 2 ^ 63 - 1) :
    ftrunc64 x = ftruncD x := by
  unfold ftrunc64
  rw [if_neg (by omega)]

theorem ftrunc64_cases (x : Dy) : ftrunc64 x = ftruncD x ∨ ftrunc64 x = -2 ^ 63 := by
  unfold ftrunc64
  split
  · right
    rfl
  · left
    rfl

theorem Add64_state (c : Config) (s : State) (num now : Int) (h : c.max ≠ 0) :
    (Add64 c s num now).1 = addState64 c s num := by
  simp only [Add64, if_neg h]
  split
  · rfl
  · split
    · split <;> rfl
    · rfl

/-! ### The claims -/

/-- C1: for every tracker and every `Advance(delta)` call that makes the
counter strictly exceed `max`, the call returns the MaximumExceeded
error, performs no render (the outcome is the bare error, not a rendered
line, a panic or a write failure), and leaves the state already mutated:
`currentNum`, `currentPercent`, `currentFillWidth` and
`lastRenderedPercent` hold the recomputed over-limit values while the
timestamps are untouched (non-rollback semantics). -/
theorem claim_C1_overMax_nonRollback (c : Config) (s : State) (num now : Int)
    (h : c.max ≠ 0) (h2 : c.max < s.currentNum + num) :
    Add c s num now =
      ({ currentNum := s.currentNum + num
         currentPercent := computePercent c.max (s.currentNum + num)
         lastPercent := computePercent c.max (s.currentNum + num)
         currentSaucerSize := computeSaucerSize c.max c.width (s.currentNum + num)
         lastShown := s.lastShown
         startTime := s.startTime }, .errorOut .maximumExceeded) := by
  rw [Add_exceeded c s num now h h2]
  rfl

set_option maxRecDepth 40000 in
/-- Witness for C1 at `max = 10`, `Advance(20)` from the blank state. -/
theorem witness_C1 :
    (cfgOf 10 40).max ≠ 0 ∧ (cfgOf 10 40).max < (getBlankState 0).currentNum + 20 ∧
      Add (cfgOf 10 40) (getBlankState 0) 20 0 =
        ({ currentNum := 20, currentPercent := 200, lastPercent := 200,
           currentSaucerSize := 80, lastShown := 0, startTime := 0 },
          .errorOut .maximumExceeded) :=
  ⟨by decide, by decide, by
    rw [claim_C1_overMax_nonRollback (cfgOf 10 40) (getBlankState 0) 20 0 (by decide) (by decide)]
    decide⟩

/-- C2: for a call with `max ≠ 0` that does not exceed `max`, the render
(the write to the sink) is executed if and only if the newly computed
percentage differs from `lastRenderedPercent` and is strictly positive
(`(Add ...).2 ≠ okNoRender` states exactly that the render call with its
write was reached); and `lastRenderedPercent` is set to the new
percentage regardless. -/
theorem claim_C2_redraw_iff (c : Config) (s : State) (num now : Int)
    (h : c.max ≠ 0) (h2 : ¬ c.max < s.currentNum + num) :
    ((Add c s num now).2 ≠ .okNoRender ↔
      computePercent c.max (s.currentNum + num) ≠ s.lastPercent ∧
        0 < computePercent c.max (s.currentNum + num)) ∧
      (Add c s num now).1.lastPercent = computePercent c.max (s.currentNum + num) := by
  refine ⟨?_, ?_⟩
  · simp only [Add, if_neg h, if_neg h2]
    split
    case isTrue hu =>
      simp only [hu, iff_true]
      split <;> simp <;> exact hu.1
    case isFalse hu =>
      simp [hu]
  · rw [Add_state c s num now h]
    rfl

set_option maxRecDepth 40000 in
/-- Witness for C2 at `max = 10`, `Advance(5)` from the blank state:
the percentage becomes 50, so a render happens and 50 is recorded. -/
theorem witness_C2 :
    (Add (cfgOf 10 40) (getBlankState 0) 5 0).2 ≠ .okNoRender ∧
      (Add (cfgOf 10 40) (getBlankState 0) 5 0).1.lastPercent = 50 :=
  ⟨(claim_C2_redraw_iff (cfgOf 10 40) (getBlankState 0) 5 0 (by decide) (by decide)).1.2
      (by decide),
    by
      rw [(claim_C2_redraw_iff (cfgOf 10 40) (getBlankState 0) 5 0 (by decide) (by decide)).2]
      decide⟩

set_option maxRecDepth 40000 in
/-- C3 counterexample: after `Construct(max=100, width=10)` and
`Advance(29)`, the code's `float64` computation yields
`currentPercent = 28`, while `floor(currentCount / max * 100) = 29`:
the floor formula of the claim does not hold. -/
theorem cex_C3_floor_formula :
    (Add (cfgOf 100 10) (getBlankState 0) 29 0).1.currentPercent ≠
        (Add (cfgOf 100 10) (getBlankState 0) 29 0).1.currentNum * 100 / (cfgOf 100 10).max ∧
      (Add (cfgOf 100 10) (getBlankState 0) 29 0).1.currentPercent = 28 := by
  constructor
  · decide
  · decide

set_option maxRecDepth 40000 in
/-- C3 as amended: after a successful advance with `max ≠ 0`,
`currentPercent` and `currentFillWidth` equal the truncation of the
binary64 computation `round(round(currentCount / max) * 100)` resp.
`round(round(currentCount / max) * width)` — which agrees with
`floor(currentCount / max * 100)` except when double rounding interferes
— and in the scenario `Construct(max=100, width=10)`, `Advance(30)` the
fill width is 3 and the rendered bar has 3 filled and 7 padding cells. -/
theorem claim_C3_float_semantics :
    (∀ (c : Config) (s : State) (num now : Int), c.max ≠ 0 →
        (Add c s num now).1.currentPercent = computePercent c.max (s.currentNum + num) ∧
          (Add c s num now).1.currentSaucerSize =
            computeSaucerSize c.max c.width (s.currentNum + num)) ∧
      Add (cfgOf 100 10) (getBlankState 0) 30 0 =
        ({ currentNum := 30, currentPercent := 30, lastPercent := 30, currentSaucerSize := 3,
           lastShown := 0, startTime := 0 },
          .okRender { percent := 30, saucerCells := 3, paddingCells := 7,
                      elapsedSeconds := 0, leftSeconds := 0 }) := by
  constructor
  · intro c s num now h
    rw [Add_state c s num now h]
    exact ⟨rfl, rfl⟩
  · decide

set_option maxRecDepth 40000 in
/-- Witness for the universally quantified half of the amended C3. -/
theorem witness_C3 :
    (Add (cfgOf 100 10) (getBlankState 0) 30 0).1.currentPercent =
      computePercent (cfgOf 100 10).max ((getBlankState 0).currentNum + 30) :=
  (claim_C3_float_semantics.1 (cfgOf 100 10) (getBlankState 0) 30 0 (by decide)).1

/-- C4: with `max = 0`, `Advance` returns the InvalidConfiguration error,
leaves the state bit-for-bit unchanged (counter, percentages, fill width
and timestamps included) and performs no write to the sink. -/
theorem claim_C4_zero_max (c : Config) (s : State) (num now : Int) (h : c.max = 0) :
    Add c s num now = (s, .errorOut .invalidConfiguration) := by
  simp only [Add, if_pos h]

/-- Witness for C4 at `max = 0`, `Advance(5)`. -/
theorem witness_C4 :
    Add (cfgOf 0 40) (getBlankState 0) 5 0 =
      (getBlankState 0, .errorOut .invalidConfiguration) :=
  claim_C4_zero_max (cfgOf 0 40) (getBlankState 0) 5 0 (by decide)

set_option maxRecDepth 100000 in
/-- C5 counterexample: with Go's 64-bit integer semantics the claimed
monotonicity fails.  On `max = 1`, `Advance(1)` sets
`currentPercent = 100`; the next advance of the non-negative delta
`2^62` makes `percent * 100 = 100 * 2^62`, which exceeds the `int64`
range, so the conversion clamps to `-2^63` and `currentPercent`
strictly decreases. -/
theorem cex_C5_wraparound :
    (Add64 (cfgOf 1 40) (getBlankState 0) 1 0).1.currentPercent = 100 ∧
      (Add64 (cfgOf 1 40) (Add64 (cfgOf 1 40) (getBlankState 0) 1 0).1
          (2 ^ 62) 0).1.currentPercent = -2 ^ 63 := by
  constructor
  · decide
  · decide

/-- C5 as amended: between resets, over advances with non-negative
deltas on a tracker with `max > 0` (so `currentNum ≥ 0` and
`currentPercent` is the value recomputed from `currentNum`), an advance
leaves `currentPercent` greater than or equal to its previous value
provided it does not overflow the 64-bit range: the new counter fits in
`int64` and the computed `int(percent * 100)` does not exceed
`2^63 - 1`.  Without that proviso the counter addition wraps and the
conversion clamps, as in the counterexample. -/
theorem claim_C5_percent_monotone (c : Config) (s : State) (num now : Int)
    (hmax : 0 < c.max) (hn : 0 ≤ s.currentNum) (hnum : 0 ≤ num)
    (hcons : s.currentPercent = computePercent64 c.max s.currentNum)
    (hrange : s.currentNum + num < 2 ^ 63)
    (hpct : computePercent c.max (s.currentNum + num) ≤ 2 ^ 63 - 1) :
    s.currentPercent ≤ (Add64 c s num now).1.currentPercent := by
  have h : c.max ≠ 0 := by omega
  have hw : wrap64 (s.currentNum + num) = s.currentNum + num :=
    wrap64_eq _ (by omega) hrange
  have hnew0 : 0 ≤ computePercent c.max (s.currentNum + num) :=
    computePercent_nonneg c.max _ hmax (by omega)
  rw [Add64_state c s num now h]
  show s.currentPercent ≤ computePercent64 c.max (wrap64 (s.currentNum + num))
  rw [hw]
  rw [show computePercent64 c.max (s.currentNum + num) =
    ftrunc64 (fmulD (percentFloat c.max (s.currentNum + num)) (fofInt 100)) from rfl]
  rw [ftrunc64_eq _ (show -2 ^ 63 ≤ computePercent c.max (s.currentNum + num) by omega) hpct]
  rw [hcons]
  rcases ftrunc64_cases (fmulD (percentFloat c.max s.currentNum) (fofInt 100)) with hold | hold
  · rw [show computePercent64 c.max s.currentNum =
      ftrunc64 (fmulD (percentFloat c.max s.currentNum) (fofInt 100)) from rfl, hold]
    exact computePercent_mono c.max s.currentNum (s.currentNum + num) hmax hn (by omega)
  · rw [show computePercent64 c.max s.currentNum =
      ftrunc64 (fmulD (percentFloat c.max s.currentNum) (fofInt 100)) from rfl, hold]
    exact le_trans (by norm_num) hnew0

set_option maxRecDepth 40000 in
/-- Witness for the amended C5: from the state after `Advance(30)` on
`max = 100, width = 10`, a further `Advance(29)` stays within the
64-bit range and cannot decrease the percentage. -/
theorem witness_C5 :
    ({ currentNum := 30, currentPercent := 30, lastPercent := 30, currentSaucerSize := 3,
       lastShown := 0, startTime := 0 } : State).currentPercent ≤
      (Add64 (cfgOf 100 10)
        { currentNum := 30, currentPercent := 30, lastPercent := 30, currentSaucerSize := 3,
          lastShown := 0, startTime := 0 } 29 0).1.currentPercent :=
  claim_C5_percent_monotone (cfgOf 100 10) _ 29 0 (by decide) (by decide) (by decide) (by decide)
    (by decide) (by decide)

/-- C6: `Reset()` zeroes `currentNum`, both percentages and the fill
width, sets `startTime` and `lastShown` to the time of the reset (so
subsequent elapsed-time computation starts there), and leaves the whole
configuration (max, width, theme, sink, renderBlankOnCreate) unchanged. -/
theorem claim_C6_reset (p : ProgressBar) (now : Int) :
    (Reset p now).state.currentNum = 0 ∧ (Reset p now).state.currentPercent = 0 ∧
      (Reset p now).state.lastPercent = 0 ∧ (Reset p now).state.currentSaucerSize = 0 ∧
      (Reset p now).state.startTime = now ∧ (Reset p now).state.lastShown = now ∧
      (Reset p now).config = p.config :=
  ⟨rfl, rfl, rfl, rfl, rfl, rfl, rfl⟩

/-- C7: with `max > 0`, on a state whose `currentPercent` is the value
recomputed from `currentNum` (true of the blank state and after every
advance) and whose `lastRenderedPercent` equals `currentPercent` (true
after the first advance), `Advance(0)` does not change `currentPercent`
and triggers no redraw: the outcome is `okNoRender` (or the bare
MaximumExceeded error if the counter already exceeded `max`), never a
rendered line. -/
theorem claim_C7_advance_zero (c : Config) (s : State) (now : Int)
    (hmax : 0 < c.max)
    (hcons : s.currentPercent = computePercent c.max s.currentNum)
    (hlast : s.lastPercent = s.currentPercent) :
    (Add c s 0 now).1.currentPercent = s.currentPercent ∧
      ((Add c s 0 now).2 = .okNoRender ∨ (Add c s 0 now).2 = .errorOut .maximumExceeded) := by
  have h : c.max ≠ 0 := by omega
  have hz : s.currentNum + 0 = s.currentNum := by ring
  constructor
  · rw [Add_state c s 0 now h]
    show computePercent c.max (s.currentNum + 0) = s.currentPercent
    rw [hz, hcons]
  · by_cases h2 : c.max < s.currentNum + 0
    · right
      rw [Add_exceeded c s 0 now h h2]
    · left
      simp only [Add, if_neg h, if_neg h2]
      have heq : computePercent c.max (s.currentNum + 0) = s.lastPercent := by
        rw [hz, ← hcons, hlast]
      rw [if_neg (by rw [heq]; simp)]

set_option maxRecDepth 40000 in
/-- Witness for C7: after `Advance(30)` on `max = 100, width = 10`,
`Advance(0)` keeps the percentage at 30 and renders nothing. -/
theorem witness_C7 :
    (Add (cfgOf 100 10)
        { currentNum := 30, currentPercent := 30, lastPercent := 30, currentSaucerSize := 3,
          lastShown := 0, startTime := 0 } 0 0).1.currentPercent = 30 ∧
      ((Add (cfgOf 100 10)
          { currentNum := 30, currentPercent := 30, lastPercent := 30, currentSaucerSize := 3,
            lastShown := 0, startTime := 0 } 0 0).2 = .okNoRender ∨
        (Add (cfgOf 100 10)
          { currentNum := 30, currentPercent := 30, lastPercent := 30, currentSaucerSize := 3,
            lastShown := 0, startTime := 0 } 0 0).2 = .errorOut .maximumExceeded) :=
  claim_C7_advance_zero (cfgOf 100 10) _ 0 (by decide) (by decide) (by decide)

set_option maxRecDepth 40000 in
/-- C8 counterexample: with `max = -1`, `Advance(1)` does not return
InvalidConfiguration — the guard checks `max == 0` only.  It mutates the
state (counter 1, percentage -100, fill width -40) and returns
MaximumExceeded. -/
theorem cex_C8_negative_max :
    Add (cfgOf (-1) 40) (getBlankState 0) 1 0 =
      ({ currentNum := 1, currentPercent := -100, lastPercent := -100,
         currentSaucerSize := -40, lastShown := 0, startTime := 0 },
        .errorOut .maximumExceeded) := by
  decide

/-- C8 as amended: a negative `max` is not rejected — the
InvalidConfiguration guard fires only for `max = 0`.  With `max < 0` the
state is mutated (`currentNum` increases by `num`), the call never
returns InvalidConfiguration, and whenever the new counter exceeds `max`
it returns the bare MaximumExceeded error with no render. -/
theorem claim_C8_negative_max_behaviour (c : Config) (s : State) (num now : Int)
    (hneg : c.max < 0) :
    (Add c s num now).2 ≠ .errorOut .invalidConfiguration ∧
      (Add c s num now).1.currentNum = s.currentNum + num ∧
      (c.max < s.currentNum + num →
        Add c s num now = (addState c s num, .errorOut .maximumExceeded)) := by
  have h : c.max ≠ 0 := by omega
  refine ⟨?_, ?_, ?_⟩
  · simp only [Add, if_neg h]
    split
    · simp
    · split
      · split
        · simp
        · next e heq =>
          have he := renderProgressBar_error _ _ _ _ heq
          simp [he]
        · simp
      · simp
  · rw [Add_state c s num now h]
    rfl
  · intro hlt
    exact Add_exceeded c s num now h hlt

set_option maxRecDepth 40000 in
/-- Witness for the amended C8 at `max = -1`, `Advance(1)`. -/
theorem witness_C8 :
    (Add (cfgOf (-1) 40) (getBlankState 0) 1 0).2 ≠ .errorOut .invalidConfiguration ∧
      (Add (cfgOf (-1) 40) (getBlankState 0) 1 0).1.currentNum =
        (getBlankState 0).currentNum + 1 :=
  ⟨(claim_C8_negative_max_behaviour (cfgOf (-1) 40) (getBlankState 0) 1 0 (by decide)).1,
    (claim_C8_negative_max_behaviour (cfgOf (-1) 40) (getBlankState 0) 1 0 (by decide)).2.1⟩

/-- C9 counterexample: construction does not always return a tracker —
with a negative width option and render-blank-on-create enabled, the
immediate zero-progress render calls `strings.Repeat` with the negative
count `width - 0` and panics, so `NewOptions` never returns. -/
theorem cex_C9_construct_panic :
    NewOptions 1 [.setWidth (-1), .setRenderBlankState true] 0 = none := by
  decide

/-- C9 as amended: construction never surfaces an error and returns the
built tracker whenever the blank render cannot panic — in particular
whenever the configured width is non-negative — for every `max`
(including zero) and every option sequence, even when the sink's writes
fail: the blank render's write error is discarded. -/
theorem claim_C9_construct_total (max : Int) (options : List Opt) (now : Int)
    (hw : 0 ≤ (buildBar max options now).config.width) :
    NewOptions max options now = some (buildBar max options now) := by
  unfold NewOptions
  by_cases hb : (buildBar max options now).config.renderWithBlankState
  · rw [if_pos hb]
    have hnp : renderProgressBar (buildBar max options now).config
        (buildBar max options now).state now ≠ none := by
      simp only [renderProgressBar, buildBar_state]
      rw [if_neg (by simp only [getBlankState]; omega)]
      split <;> simp
    rcases hopt : renderProgressBar (buildBar max options now).config
        (buildBar max options now).state now with _ | r
    · exact absurd hopt hnp
    · rfl
  · rw [if_neg hb]

/-- Witness for the amended C9: a failing sink with render-blank-state
enabled still yields a tracker (the write error is discarded). -/
theorem witness_C9 :
    0 ≤ (buildBar 5 [.setWriter true, .setRenderBlankState true] 0).config.width ∧
      NewOptions 5 [.setWriter true, .setRenderBlankState true] 0 =
        some (buildBar 5 [.setWriter true, .setRenderBlankState true] 0) :=
  ⟨by decide, claim_C9_construct_total 5 [.setWriter true, .setRenderBlankState true] 0 (by decide)⟩

set_option maxRecDepth 40000 in
/-- C10: rendering is not total — whenever the state's fill width
exceeds the configured width or is negative, `renderProgressBar` panics
(one of the two `strings.Repeat` counts is negative); and this is
reachable: `Advance(20)` on `max = 10` returns MaximumExceeded leaving
`currentFillWidth = 80 > width = 40`, after which `RenderBlank` panics
instead of returning an error. -/
theorem claim_C10_render_not_total :
    (∀ (c : Config) (s : State) (now : Int),
        s.currentSaucerSize < 0 ∨ c.width < s.currentSaucerSize →
          renderProgressBar c s now = none) ∧
      (Add (cfgOf 10 40) (getBlankState 0) 20 0).2 = .errorOut .maximumExceeded ∧
      (cfgOf 10 40).width < (Add (cfgOf 10 40) (getBlankState 0) 20 0).1.currentSaucerSize ∧
      RenderBlank ⟨(Add (cfgOf 10 40) (getBlankState 0) 20 0).1, cfgOf 10 40⟩ 0 = none := by
  refine ⟨?_, by decide, by decide, by decide⟩
  intro c s now h
  simp only [renderProgressBar]
  rw [if_pos (by omega)]

/-- Witness for C10 at the over-limit state left by `Advance(20)` on
`max = 10` (fill width 80 against width 40). -/
theorem witness_C10 :
    renderProgressBar (cfgOf 10 40)
      { currentNum := 20, currentPercent := 200, lastPercent := 200, currentSaucerSize := 80,
        lastShown := 0, startTime := 0 } 0 = none :=
  claim_C10_render_not_total.1 (cfgOf 10 40) _ 0 (Or.inr (by decide))

end ProgressBarGo
